import Mathlib

/-!
Shallow embedding of the dictionary compiler `600_create_stardict.py` of the
`epub2stardict` repository, together with proofs of the specification claims
about it.

Modelling conventions:
* Python `bytes` values are `List Nat` with every element `< 256`.
* `str.encode("utf-8")` is `strBytes`, an explicit UTF-8 encoder over the
  string's characters (Lean `Char`s are Unicode scalar values, as in Python).
* Python's `str.strip()` is `pystrip`, which drops the ASCII whitespace
  characters from both ends (the only whitespace relevant to the claims).
* A parsed JSONL object is a `Record`; `json.loads` itself and the skipping of
  blank lines are outside the model, so a source stream is a `List Record`.
  The JSON field `lemma` is called `lemmaField` (`lemma` is a Lean keyword).
* Python `dict`s (which preserve insertion order) are association lists, and
  the per-word `set` of seen examples is a `List String` used for membership
  tests only (it is never iterated in the source).
* `struct.pack(">I", n)` is `packU32 n : Option (List Nat)`: `none` models the
  `struct.error` raised when `n` is out of the unsigned 32-bit range, and the
  `Option` is threaded through `build_dict_and_idx`, so `none` for the whole
  build models the exception aborting the run before any file is written
  (in `main` the files are opened only after `build_dict_and_idx` returns).
* Python's `sorted` / `list.sort` are stable sorts; they are modelled by
  Mathlib's `List.insertionSort` with the non-strict comparison
  `key a ≤ key b`, which inserts every element before the later-scanned
  elements of equal key and is therefore stable in the same sense.
-/

namespace Epub2Stardict

/-- The ASCII whitespace characters stripped by Python's `str.strip()`
(general Unicode whitespace is not needed by any claim). -/
def pyIsSpace (c : Char) : Bool :=
  c = ' ' || c = '\t' || c = '\n' || c = '\r' || c = '\x0b' || c = '\x0c'

/-- Python `s.strip()`: drop whitespace from both ends of the string. -/
def pystrip (s : String) : String :=
  String.mk (((s.data.dropWhile pyIsSpace).reverse.dropWhile pyIsSpace).reverse)

/-- Python `a or b` where `a : Option String` came from `dict.get` (absent or
JSON-null keys give `none`): `none` and the empty string are falsy, every
other string is truthy. -/
def pyOr (a : Option String) (b : String) : String :=
  match a with
  | none => b
  | some s => if s = "" then b else s

/-- UTF-8 encoding of one Unicode scalar value, as a list of byte values. -/
def utf8EncodeNat (c : Nat) : List Nat :=
  if c < 0x80 then [c]
  else if c < 0x800 then
    [0xC0 ||| (c >>> 6), 0x80 ||| (c &&& 0x3F)]
  else if c < 0x10000 then
    [0xE0 ||| (c >>> 12), 0x80 ||| ((c >>> 6) &&& 0x3F), 0x80 ||| (c &&& 0x3F)]
  else
    [0xF0 ||| (c >>> 18), 0x80 ||| ((c >>> 12) &&& 0x3F),
     0x80 ||| ((c >>> 6) &&& 0x3F), 0x80 ||| (c &&& 0x3F)]

/-- Python `s.encode("utf-8")` as a list of byte values. -/
def strBytes (s : String) : List Nat :=
  s.data.flatMap (fun c => utf8EncodeNat c.toNat)

/-- `_ascii_lower_bytes` (line 33): only bytes `'A'..'Z'` (65..90) are lowered
by adding 32; every other byte is unchanged. -/
def ascii_lower_bytes (b : List Nat) : List Nat :=
  b.map (fun ch => if 65 ≤ ch ∧ ch ≤ 90 then ch + 32 else ch)

/-- Lexicographic strict order on byte strings: Python's `<` on `bytes`
(a proper prefix is smaller). -/
def bytesLt : List Nat → List Nat → Bool
  | [], [] => false
  | [], _ :: _ => true
  | _ :: _, [] => false
  | a :: as, b :: bs => if a < b then true else if b < a then false else bytesLt as bs

/-- `stardict_strcmp` (line 45): compare the ASCII-case-folded UTF-8 bytes;
on a tie, compare the raw UTF-8 bytes; the source's chain of
`if c1 < c2 / c1 > c2 / b1 < b2 / b1 > b2` comparisons on Python bytes. -/
def stardict_strcmp (s1 s2 : String) : Int :=
  let b1 := strBytes s1
  let b2 := strBytes s2
  let c1 := ascii_lower_bytes b1
  let c2 := ascii_lower_bytes b2
  if bytesLt c1 c2 then -1
  else if bytesLt c2 c1 then 1
  else if bytesLt b1 b2 then -1
  else if bytesLt b2 b1 then 1
  else 0

/-- A JSON scalar value, as far as the compiler inspects one: the source only
ever tests `obj.get("ok") is False`, i.e. whether the field is JSON `false`. -/
inductive JsonVal where
  | jnull : JsonVal
  | jbool : Bool → JsonVal
  | jnum : Int → JsonVal
  | jstr : String → JsonVal
deriving DecidableEq, Repr

/-- One parsed JSONL object, restricted to the fields the compiler reads.
`none` models an absent key (`dict.get` returning `None`). -/
structure Record where
  ok : Option JsonVal := none
  word : Option String := none
  lemmaField : Option String := none
  meaning_hu : Option String := none
  pos_hu : Option String := none
  example_surface_en : Option String := none
  example_lemma_en : Option String := none
deriving DecidableEq, Repr

/-- The line-list part of `build_definition` (line 77): the rendered lines and
the updated per-word seen-example set. The Python function mutates the set in
place and joins the lines; here the lines and the new set are returned. -/
def build_definition_core (entry : Record) (seen : List String) (source_label : String) :
    List String × List String :=
  let meaning_hu := pystrip (pyOr entry.meaning_hu "")
  let pos_ai_hu := pystrip (pyOr entry.pos_hu "")
  let example_surface_en := pystrip (pyOr entry.example_surface_en "")
  let example_lemma_en := pystrip (pyOr entry.example_lemma_en "")
  let lines : List String :=
    if meaning_hu ≠ "" then
      if pos_ai_hu ≠ "" then
        [meaning_hu ++ " (" ++ pos_ai_hu ++ ") (" ++ source_label ++ ")"]
      else
        [meaning_hu ++ " (" ++ source_label ++ ")"]
    else
      let word := pystrip (pyOr entry.word (pyOr entry.lemmaField ""))
      if word ≠ "" then
        if pos_ai_hu ≠ "" then
          [word ++ " (" ++ pos_ai_hu ++ ") (" ++ source_label ++ ")"]
        else
          [word ++ " (" ++ source_label ++ ")"]
      else []
  let step1 : List String × List String :=
    if example_surface_en ≠ "" ∧ example_surface_en ∉ seen then
      (lines ++ [example_surface_en], seen ++ [example_surface_en])
    else (lines, seen)
  let step2 : List String × List String :=
    if example_lemma_en ≠ "" ∧ example_lemma_en ∉ step1.2 then
      (step1.1 ++ [example_lemma_en], step1.2 ++ [example_lemma_en])
    else step1
  let finalLines :=
    if step2.1 = [] then [pystrip (pyOr entry.word (pyOr entry.lemmaField "<?>"))]
    else step2.1
  (finalLines, step2.2)

/-- `build_definition` (line 77): the joined definition block together with the
updated per-word seen-example set. -/
def build_definition (entry : Record) (seen : List String) (source_label : String) :
    String × List String :=
  let core := build_definition_core entry seen source_label
  (String.intercalate "\n" core.1, core.2)

/-- Association-list lookup, modelling Python `dict` access. -/
def alistGet {β : Type} (l : List (String × β)) (k : String) : Option β :=
  match l with
  | [] => none
  | (k1, v) :: rest => if k1 = k then some v else alistGet rest k

/-- Association-list update: replace the value at an existing key in place, or
append the new key at the end (Python `dict` insertion-order semantics). -/
def alistSet {β : Type} (l : List (String × β)) (k : String) (v : β) : List (String × β) :=
  match l with
  | [] => [(k, v)]
  | (k1, v1) :: rest => if k1 = k then (k1, v) :: rest else (k1, v1) :: alistSet rest k v

/-- The mutable state of `load_entries_from_sources` (line 124):
`word_to_def_blocks` and `word_to_seen_examples`. -/
structure LoadState where
  blocks : List (String × List (String × String))
  seen : List (String × List String)
deriving DecidableEq, Repr

/-- The headword chosen for a record (line 148):
`(obj.get("word") or obj.get("lemma") or "").strip()`. -/
def headwordOf (obj : Record) : String :=
  pystrip (pyOr obj.word (pyOr obj.lemmaField ""))

/-- The body of the per-line loop of `load_entries_from_sources`
(lines 142-156): skip records whose `ok` field is literally JSON `false`,
skip records whose chosen headword is blank, otherwise render a block with
`build_definition` against the word's seen-example set (`setdefault` plus
in-place mutation becomes a write-back) and append it when non-empty. -/
def processRecord (st : LoadState) (source_label : String) (obj : Record) : LoadState :=
  if obj.ok = some (JsonVal.jbool false) then st
  else
    let word := headwordOf obj
    if word = "" then st
    else
      let seen_examples := (alistGet st.seen word).getD []
      let result := build_definition obj seen_examples source_label
      let st1 : LoadState := { st with seen := alistSet st.seen word result.2 }
      if result.1 ≠ "" then
        { st1 with blocks :=
            alistSet st1.blocks word ((alistGet st1.blocks word).getD [] ++ [(source_label, result.1)]) }
      else st1

/-- `MODEL_PRIORITY` (line 17). -/
def MODEL_PRIORITY : List String := ["GPT-5-mini", "gemma3:27b"]

/-- Position of a label in a label list, counting from `i`; `999` if absent. -/
def priorityIndexAux (label : String) : List String → Nat → Nat
  | [], _ => 999
  | l :: ls, i => if l = label then i else priorityIndexAux label ls (i + 1)

/-- `priority_index.get(label, 999)` (lines 162, 168): the rank of a source
label in `MODEL_PRIORITY`, with `999` for unranked labels. -/
def priority_index (label : String) : Nat :=
  priorityIndexAux label MODEL_PRIORITY 0

/-- The non-strict word order induced by the comparator `stardict_strcmp`,
as used through `cmp_to_key` by `sorted` (line 164). -/
def wordLe (a b : String) : Prop := stardict_strcmp a b ≤ 0

instance : DecidableRel wordLe := fun a b =>
  inferInstanceAs (Decidable (stardict_strcmp a b ≤ 0))

/-- The non-strict block order induced by the `priority_index` sort key
(line 168). -/
def blockLe (p q : String × String) : Prop := priority_index p.1 ≤ priority_index q.1

instance : DecidableRel blockLe := fun p q =>
  inferInstanceAs (Decidable (priority_index p.1 ≤ priority_index q.1))

/-- The state after the reading loops of `load_entries_from_sources`
(lines 134-156): fold over the sources, and within one source over its
records. A source is a `(records, source label)` pair, mirroring the
`(jsonl_path, source_label)` pairs of the code. -/
def loadState (sources : List (List Record × String)) : LoadState :=
  sources.foldl
    (fun st src => src.1.foldl (fun st2 obj => processRecord st2 src.2 obj) st)
    ⟨[], []⟩

/-- `load_entries_from_sources` (line 124): headwords sorted by
`stardict_strcmp`, each with its blocks sorted by model priority and joined
by a blank line. -/
def load_entries_from_sources (sources : List (List Record × String)) :
    List (String × String) :=
  let st := loadState sources
  let sortedWords := List.insertionSort wordLe (st.blocks.map Prod.fst)
  sortedWords.map (fun word =>
    let blocks_with_labels := List.insertionSort blockLe ((alistGet st.blocks word).getD [])
    (word, String.intercalate "\n\n" (blocks_with_labels.map Prod.snd)))

/-- Big-endian 4-byte encoding of a natural number below `2^32`. -/
def be32 (n : Nat) : List Nat :=
  [n / 2 ^ 24 % 256, n / 2 ^ 16 % 256, n / 2 ^ 8 % 256, n % 256]

/-- `struct.pack(">I", n)`: the 4 big-endian bytes, or `none` for the
`struct.error` raised when `n` does not fit in 32 bits. -/
def packU32 (n : Nat) : Option (List Nat) :=
  if n < 2 ^ 32 then some (be32 n) else none

/-- The serialized payload of one `(word, definition)` entry (line 194):
the UTF-8 bytes of `"<k>" + word + "</k>\n" + definition`. -/
def payloadBytes (e : String × String) : List Nat :=
  strBytes ("<k>" ++ e.1 ++ "</k>" ++ "\n" ++ e.2)

/-- The loop of `build_dict_and_idx` (lines 189-205), carrying the running
`offset`; produces `(dict_data, idx_data)` or `none` when a `struct.pack`
call raises. -/
def build_aux : List (String × String) → Nat → Option (List Nat × List Nat)
  | [], _ => some ([], [])
  | e :: rest, offset =>
    let word_bytes := strBytes e.1
    let def_bytes := payloadBytes e
    match packU32 offset, packU32 def_bytes.length with
    | some packedOff, some packedLen =>
      match build_aux rest (offset + def_bytes.length) with
      | some (d, i) => some (def_bytes ++ d, word_bytes ++ [0] ++ packedOff ++ packedLen ++ i)
      | none => none
    | _, _ => none

/-- `build_dict_and_idx` (line 177): the concatenated data blob and index
bytes, starting from offset 0. -/
def build_dict_and_idx (entries : List (String × String)) : Option (List Nat × List Nat) :=
  build_aux entries 0

/-- The sequence of offsets assigned to the entries when serialization starts
at `off`: each entry's offset is `off` plus the payload lengths before it. -/
def offsetsFrom (off : Nat) : List (String × String) → List Nat
  | [] => []
  | e :: rest => off :: offsetsFrom (off + (payloadBytes e).length) rest

/-! ### Facts about the lexicographic byte order -/

lemma bytesLt_cases (a : List Nat) : ∀ b : List Nat,
    (bytesLt a b = true ∧ bytesLt b a = false ∧ a ≠ b) ∨
    (bytesLt a b = false ∧ bytesLt b a = true ∧ a ≠ b) ∨
    (bytesLt a b = false ∧ bytesLt b a = false ∧ a = b) := by
  induction a with
  | nil =>
    intro b
    cases b with
    | nil => exact Or.inr (Or.inr ⟨rfl, rfl, rfl⟩)
    | cons y ys => exact Or.inl ⟨rfl, rfl, by simp⟩
  | cons x xs ih =>
    intro b
    cases b with
    | nil => exact Or.inr (Or.inl ⟨rfl, rfl, by simp⟩)
    | cons y ys =>
      rcases Nat.lt_trichotomy x y with hxy | hxy | hxy
      · refine Or.inl ⟨?_, ?_, ?_⟩
        · simp [bytesLt, hxy]
        · simp [bytesLt, hxy, Nat.lt_asymm hxy]
        · simp [Nat.ne_of_lt hxy]
      · subst hxy
        rcases ih ys with ⟨h1, h2, h3⟩ | ⟨h1, h2, h3⟩ | ⟨h1, h2, h3⟩
        · exact Or.inl ⟨by simpa [bytesLt] using h1, by simpa [bytesLt] using h2, by simp [h3]⟩
        · exact Or.inr (Or.inl ⟨by simpa [bytesLt] using h1, by simpa [bytesLt] using h2,
            by simp [h3]⟩)
        · exact Or.inr (Or.inr ⟨by simpa [bytesLt] using h1, by simpa [bytesLt] using h2,
            by simp [h3]⟩)
      · refine Or.inr (Or.inl ⟨?_, ?_, ?_⟩)
        · simp [bytesLt, hxy, Nat.lt_asymm hxy]
        · simp [bytesLt, hxy]
        · intro hcons
          injection hcons with hxy' _
          exact Nat.ne_of_lt hxy hxy'.symm

lemma bytesLt_irrefl (a : List Nat) : bytesLt a a = false := by
  rcases bytesLt_cases a a with ⟨_, _, h⟩ | ⟨_, _, h⟩ | ⟨h, _, _⟩
  · exact absurd rfl h
  · exact absurd rfl h
  · exact h

lemma bytesLt_asymm {a b : List Nat} (h : bytesLt a b = true) : bytesLt b a = false := by
  rcases bytesLt_cases a b with ⟨_, h2, _⟩ | ⟨h1, _, _⟩ | ⟨h1, _, _⟩
  · exact h2
  · rw [h] at h1; exact absurd h1 (by simp)
  · rw [h] at h1; exact absurd h1 (by simp)

lemma bytesLt_eq_of_false {a b : List Nat} (h1 : bytesLt a b = false)
    (h2 : bytesLt b a = false) : a = b := by
  rcases bytesLt_cases a b with ⟨h3, _, _⟩ | ⟨_, h3, _⟩ | ⟨_, _, h3⟩
  · rw [h1] at h3; exact absurd h3 (by simp)
  · rw [h2] at h3; exact absurd h3 (by simp)
  · exact h3

lemma bytesLt_resolve {a b : List Nat} (h : bytesLt a b = false) :
    bytesLt b a = true ∨ a = b := by
  rcases bytesLt_cases a b with ⟨h1, _, _⟩ | ⟨_, h1, _⟩ | ⟨_, _, h1⟩
  · rw [h] at h1; exact absurd h1 (by simp)
  · exact Or.inl h1
  · exact Or.inr h1

lemma bytesLt_trans (a : List Nat) : ∀ b c : List Nat,
    bytesLt a b = true → bytesLt b c = true → bytesLt a c = true := by
  induction a with
  | nil =>
    intro b c h1 h2
    cases b with
    | nil => simp [bytesLt] at h1
    | cons y ys =>
      cases c with
      | nil => simp [bytesLt] at h2
      | cons z zs => simp [bytesLt]
  | cons x xs ih =>
    intro b c h1 h2
    cases b with
    | nil => simp [bytesLt] at h1
    | cons y ys =>
      cases c with
      | nil => simp [bytesLt] at h2
      | cons z zs =>
        by_cases hxy : x < y
        · by_cases hyz : y < z
          · simp [bytesLt, Nat.lt_trans hxy hyz]
          · by_cases hzy : z < y
            · simp [bytesLt, hyz, hzy] at h2
            · have hyz' : y = z := Nat.le_antisymm (Nat.not_lt.mp hzy) (Nat.not_lt.mp hyz)
              subst hyz'
              simp [bytesLt, hxy]
        · by_cases hyx : y < x
          · simp [bytesLt, hxy, hyx] at h1
          · have hxy' : x = y := Nat.le_antisymm (Nat.not_lt.mp hyx) (Nat.not_lt.mp hxy)
            subst hxy'
            simp only [bytesLt, Nat.lt_irrefl, if_false] at h1
            by_cases hxz : x < z
            · simp [bytesLt, hxz]
            · by_cases hzx : z < x
              · simp [bytesLt, hxz, hzx] at h2
              · have hxz' : x = z := Nat.le_antisymm (Nat.not_lt.mp hzx) (Nat.not_lt.mp hxz)
                subst hxz'
                simp only [bytesLt, Nat.lt_irrefl, if_false] at h2 ⊢
                exact ih ys zs h1 h2

/-! ### Characterization of the comparator and its order properties -/

lemma stardict_strcmp_le_iff (s1 s2 : String) :
    stardict_strcmp s1 s2 ≤ 0 ↔
      (bytesLt (ascii_lower_bytes (strBytes s1)) (ascii_lower_bytes (strBytes s2)) = true ∨
       (ascii_lower_bytes (strBytes s1) = ascii_lower_bytes (strBytes s2) ∧
        bytesLt (strBytes s2) (strBytes s1) = false)) := by
  simp only [stardict_strcmp]
  split_ifs with h1 h2 h3 h4
  · exact iff_of_true (by norm_num) (Or.inl h1)
  · refine iff_of_false (by norm_num) ?_
    rintro (hc | ⟨hc, _⟩)
    · rw [hc] at h1; exact h1 rfl
    · rw [hc, bytesLt_irrefl] at h2; exact absurd h2 (by simp)
  · have hc := bytesLt_eq_of_false (by simpa using h1) (by simpa using h2)
    exact iff_of_true (by norm_num) (Or.inr ⟨hc, bytesLt_asymm h3⟩)
  · refine iff_of_false (by norm_num) ?_
    rintro (hc | ⟨_, hc⟩)
    · rw [hc] at h1; exact h1 rfl
    · rw [hc] at h4; exact absurd h4 (by simp)
  · have hc := bytesLt_eq_of_false (by simpa using h1) (by simpa using h2)
    exact iff_of_true (by norm_num) (Or.inr ⟨hc, by simpa using h4⟩)

lemma stardict_strcmp_self (s : String) : stardict_strcmp s s = 0 := by
  simp [stardict_strcmp, bytesLt_irrefl]

lemma stardict_strcmp_zero_bytes {a b : String} (h : stardict_strcmp a b = 0) :
    strBytes a = strBytes b := by
  simp only [stardict_strcmp] at h
  split_ifs at h with h1 h2 h3 h4 <;>
    first
      | exact bytesLt_eq_of_false (by simpa using h3) (by simpa using h4)
      | exact absurd h (by norm_num)

instance : IsTrans String wordLe where
  trans a b c hab hbc := by
    rw [wordLe, stardict_strcmp_le_iff] at hab hbc ⊢
    rcases hab with h1 | ⟨h1, h1'⟩
    · rcases hbc with h2 | ⟨h2, _⟩
      · exact Or.inl (bytesLt_trans _ _ _ h1 h2)
      · exact Or.inl (h2 ▸ h1)
    · rcases hbc with h2 | ⟨h2, h2'⟩
      · exact Or.inl (h1 ▸ h2)
      · refine Or.inr ⟨h1.trans h2, ?_⟩
        rcases bytesLt_resolve h1' with hr1 | hr1
        · rcases bytesLt_resolve h2' with hr2 | hr2
          · exact bytesLt_asymm (bytesLt_trans _ _ _ hr1 hr2)
          · exact hr2 ▸ h1'
        · exact hr1 ▸ h2'

instance : IsTotal String wordLe where
  total a b := by
    rw [wordLe, wordLe, stardict_strcmp_le_iff, stardict_strcmp_le_iff]
    by_cases hc : bytesLt (ascii_lower_bytes (strBytes a)) (ascii_lower_bytes (strBytes b)) = true
    · exact Or.inl (Or.inl hc)
    · have hc' : bytesLt (ascii_lower_bytes (strBytes a)) (ascii_lower_bytes (strBytes b)) =
          false := by simpa using hc
      rcases bytesLt_resolve hc' with hc2 | hc2
      · exact Or.inr (Or.inl hc2)
      · by_cases hb : bytesLt (strBytes b) (strBytes a) = true
        · exact Or.inr (Or.inr ⟨hc2.symm, bytesLt_asymm hb⟩)
        · exact Or.inl (Or.inr ⟨hc2, by simpa using hb⟩)

instance : IsTrans (String × String) blockLe where
  trans _ _ _ hpq hqr := Nat.le_trans hpq hqr

instance : IsTotal (String × String) blockLe where
  total p q := Nat.le_total (priority_index p.1) (priority_index q.1)

/-! ### The spec's description of the collator, as a second definition -/

/-- The spec's per-byte ASCII case fold: bytes `'A'..'Z'` lowered to
`'a'..'z'`, all other bytes (including any byte of a multi-byte UTF-8
sequence) left unchanged. -/
def spec_ascii_fold_byte (ch : Nat) : Nat :=
  if 65 ≤ ch ∧ ch ≤ 90 then ch + 32 else ch

/-- The spec's ASCII case fold of a byte string. -/
def spec_ascii_fold (b : List Nat) : List Nat := b.map spec_ascii_fold_byte

/-- Three-way comparison of byte strings. -/
def spec_bytes_cmp (a b : List Nat) : Int :=
  if bytesLt a b then -1 else if bytesLt b a then 1 else 0

/-- The collator as the spec words it: compare the ASCII-case-folded byte
strings; if and only if they are equal, fall back to a plain byte-for-byte
comparison of the original unfolded byte strings. -/
def spec_collate (s1 s2 : String) : Int :=
  if spec_ascii_fold (strBytes s1) = spec_ascii_fold (strBytes s2) then
    spec_bytes_cmp (strBytes s1) (strBytes s2)
  else
    spec_bytes_cmp (spec_ascii_fold (strBytes s1)) (spec_ascii_fold (strBytes s2))

lemma spec_ascii_fold_eq_lower (b : List Nat) : spec_ascii_fold b = ascii_lower_bytes b := rfl

/-- C2: `stardict_strcmp` compares ASCII-case-folded UTF-8 bytes and falls
back to a byte-for-byte comparison of the unfolded bytes exactly when the
folded byte strings are equal; in particular `"Apple"` sorts strictly before
`"apple"`. -/
theorem stardict_strcmp_matches_spec_collation :
    (∀ s1 s2 : String, stardict_strcmp s1 s2 = spec_collate s1 s2) ∧
    stardict_strcmp "Apple" "apple" = -1 ∧ stardict_strcmp "apple" "Apple" = 1 := by
  refine ⟨fun s1 s2 => ?_, by decide, by decide⟩
  simp only [stardict_strcmp, spec_collate, spec_bytes_cmp, spec_ascii_fold_eq_lower]
  by_cases heq : ascii_lower_bytes (strBytes s1) = ascii_lower_bytes (strBytes s2)
  · rw [if_pos heq, heq, bytesLt_irrefl]
    simp
  · rw [if_neg heq]
    by_cases h1 : bytesLt (ascii_lower_bytes (strBytes s1)) (ascii_lower_bytes (strBytes s2)) =
        true
    · simp [h1]
    · have h1' : bytesLt (ascii_lower_bytes (strBytes s1)) (ascii_lower_bytes (strBytes s2)) =
          false := by simpa using h1
      rcases bytesLt_resolve h1' with h2 | h2
      · simp [h1', h2]
      · exact absurd h2 heq

lemma map_fst_load (sources : List (List Record × String)) :
    (load_entries_from_sources sources).map Prod.fst =
      List.insertionSort wordLe ((loadState sources).blocks.map Prod.fst) := by
  simp only [load_entries_from_sources, List.map_map]
  have h : (Prod.fst ∘ fun word : String =>
      (word, String.intercalate "\n\n" (List.map Prod.snd
        (List.insertionSort blockLe ((alistGet (loadState sources).blocks word).getD []))))) =
      id := funext fun _ => rfl
  rw [h, List.map_id]

/-- C4: in the produced entry list the headwords are pairwise ordered by the
comparator (`stardict_strcmp h1 h2 ≤ 0` whenever `h1` precedes `h2`), and they
are a permutation of the aggregated headword set; the comparator is reflexive
(`strcmp s s = 0`), transitive, and antisymmetric at the byte level. -/
theorem load_entries_sorted_by_collator (sources : List (List Record × String)) :
    List.Pairwise wordLe ((load_entries_from_sources sources).map Prod.fst) ∧
    List.Perm ((load_entries_from_sources sources).map Prod.fst)
      ((loadState sources).blocks.map Prod.fst) ∧
    (∀ s : String, stardict_strcmp s s = 0) ∧
    (∀ a b c : String, wordLe a b → wordLe b c → wordLe a c) ∧
    (∀ a b : String, stardict_strcmp a b = 0 → strBytes a = strBytes b) := by
  refine ⟨?_, ?_, stardict_strcmp_self,
    fun a b c hab hbc => @IsTrans.trans String wordLe _ a b c hab hbc,
    fun a b h => stardict_strcmp_zero_bytes h⟩
  · rw [map_fst_load]
    exact List.sorted_insertionSort wordLe _
  · rw [map_fst_load]
    exact List.perm_insertionSort wordLe _

/-- Witness for C4 at concrete inputs: transitivity applied to decided facts. -/
theorem load_entries_sorted_by_collator_witness :
    wordLe "Apple" "apple" ∧ wordLe "apple" "banana" ∧ wordLe "Apple" "banana" :=
  ⟨by decide, by decide,
    (load_entries_sorted_by_collator []).2.2.2.1 "Apple" "apple" "banana"
      (by decide) (by decide)⟩

/-! ### Facts about the binary compiler -/

lemma strBytes_append (s t : String) : strBytes (s ++ t) = strBytes s ++ strBytes t := by
  simp [strBytes, String.data_append, List.flatMap_append]

lemma packU32_some {n : Nat} {b : List Nat} (h : packU32 n = some b) :
    b = be32 n ∧ n < 2 ^ 32 := by
  unfold packU32 at h
  split_ifs at h with hlt
  · exact ⟨(Option.some_injective _ h).symm, hlt⟩

lemma packU32_none_of_ge {n : Nat} (h : 2 ^ 32 ≤ n) : packU32 n = none := by
  unfold packU32
  rw [if_neg (by omega)]

lemma offsetsFrom_getD_zero (es : List (String × String)) (off : Nat) (h : es ≠ []) :
    (offsetsFrom off es).getD 0 0 = off := by
  cases es with
  | nil => exact absurd rfl h
  | cons e rest => rfl

lemma offsetsFrom_getD_step (es : List (String × String)) : ∀ (off k : Nat),
    k + 1 < es.length →
    (offsetsFrom off es).getD (k + 1) 0 =
      (offsetsFrom off es).getD k 0 + (es.map fun e => (payloadBytes e).length).getD k 0 := by
  induction es with
  | nil => intro off k h; simp at h
  | cons e rest ih =>
    intro off k h
    cases k with
    | zero =>
      cases rest with
      | nil => simp at h
      | cons e2 r2 => simp [offsetsFrom, List.getD]
    | succ k2 =>
      have h2 : k2 + 1 < rest.length := by simpa using h
      simpa [offsetsFrom, List.getD] using ih (off + (payloadBytes e).length) k2 h2

lemma build_aux_eq (es : List (String × String)) : ∀ (off : Nat) (d i : List Nat),
    build_aux es off = some (d, i) →
    d = (es.map payloadBytes).flatten ∧
    i = ((es.zip (offsetsFrom off es)).map
        (fun p => strBytes p.1.1 ++ [0] ++ be32 p.2 ++ be32 (payloadBytes p.1).length)).flatten := by
  induction es with
  | nil =>
    intro off d i h
    simp only [build_aux, Option.some_inj, Prod.mk.injEq] at h
    obtain ⟨rfl, rfl⟩ := h
    exact ⟨by simp, by simp [offsetsFrom]⟩
  | cons e rest ih =>
    intro off d i h
    simp only [build_aux] at h
    cases hpo : packU32 off with
    | none => rw [hpo] at h; simp at h
    | some po =>
      cases hpl : packU32 (payloadBytes e).length with
      | none => rw [hpo, hpl] at h; simp at h
      | some pl =>
        rw [hpo, hpl] at h
        cases hrec : build_aux rest (off + (payloadBytes e).length) with
        | none => rw [hrec] at h; simp at h
        | some di =>
          obtain ⟨dr, ir⟩ := di
          rw [hrec] at h
          simp only [Option.some_inj, Prod.mk.injEq] at h
          obtain ⟨hd, hi⟩ := h
          obtain ⟨hdr, hir⟩ := ih _ _ _ hrec
          obtain ⟨hpo2, _⟩ := packU32_some hpo
          obtain ⟨hpl2, _⟩ := packU32_some hpl
          constructor
          · rw [← hd, hdr]
            simp
          · rw [← hi, hir, hpo2, hpl2]
            simp [offsetsFrom, List.zip_cons_cons, List.append_assoc]

lemma build_aux_overflow (es : List (String × String)) : ∀ off : Nat,
    (∃ e ∈ es, 2 ^ 32 ≤ (payloadBytes e).length) → build_aux es off = none := by
  induction es with
  | nil => intro off h; simp at h
  | cons e rest ih =>
    intro off h
    simp only [build_aux]
    rcases h with ⟨e2, he2, hlen⟩
    rcases List.mem_cons.mp he2 with rfl | hmem
    · rw [packU32_none_of_ge hlen]
      cases packU32 off <;> simp
    · rw [ih (off + (payloadBytes e).length) ⟨e2, hmem, hlen⟩]
      cases packU32 off <;> cases packU32 (payloadBytes e).length <;> simp

/-- C1: when `build_dict_and_idx` produces an artifact set, the offsets start
at 0, each next offset is the previous offset plus the previous length, the
lengths sum to the size of the data blob, and the index bytes record exactly
these offset/length pairs. -/
theorem build_dict_and_idx_offsets_contiguous (entries : List (String × String))
    (d i : List Nat) (h : build_dict_and_idx entries = some (d, i)) :
    (entries ≠ [] → (offsetsFrom 0 entries).getD 0 0 = 0) ∧
    (∀ k, k + 1 < entries.length →
      (offsetsFrom 0 entries).getD (k + 1) 0 =
        (offsetsFrom 0 entries).getD k 0 +
          (entries.map fun e => (payloadBytes e).length).getD k 0) ∧
    (entries.map fun e => (payloadBytes e).length).sum = d.length ∧
    i = ((entries.zip (offsetsFrom 0 entries)).map
        (fun p => strBytes p.1.1 ++ [0] ++ be32 p.2 ++ be32 (payloadBytes p.1).length)).flatten := by
  obtain ⟨hd, hi⟩ := build_aux_eq entries 0 d i h
  refine ⟨fun hne => offsetsFrom_getD_zero _ _ hne,
    fun k hk => offsetsFrom_getD_step _ _ _ hk, ?_, hi⟩
  rw [hd, List.length_flatten, List.map_map]
  rfl

/-- Witness for C1 at a concrete two-entry input. -/
theorem build_dict_and_idx_offsets_contiguous_witness :
    build_dict_and_idx [("a", "x"), ("b", "y")] =
      some (strBytes "<k>a</k>\nx" ++ strBytes "<k>b</k>\ny",
        strBytes "a" ++ [0] ++ be32 0 ++ be32 10 ++
          (strBytes "b" ++ [0] ++ be32 10 ++ be32 10)) ∧
    ([("a", "x"), ("b", "y")].map fun e => (payloadBytes e).length).sum =
      (strBytes "<k>a</k>\nx" ++ strBytes "<k>b</k>\ny").length :=
  ⟨by decide,
    (build_dict_and_idx_offsets_contiguous [("a", "x"), ("b", "y")]
      (strBytes "<k>a</k>\nx" ++ strBytes "<k>b</k>\ny")
      (strBytes "a" ++ [0] ++ be32 0 ++ be32 10 ++
        (strBytes "b" ++ [0] ++ be32 10 ++ be32 10))
      (by decide)).2.2.1⟩

/-- C3: the compiled data blob is the concatenation of the per-entry payloads
`<k>` + headword + `</k>` + newline + definition (in UTF-8), and the index is
the concatenation of records `headword-bytes, 0x00, big-endian 32-bit offset,
big-endian 32-bit length`. -/
theorem build_dict_and_idx_record_layout (entries : List (String × String))
    (d i : List Nat) (h : build_dict_and_idx entries = some (d, i)) :
    d = (entries.map payloadBytes).flatten ∧
    i = ((entries.zip (offsetsFrom 0 entries)).map
        (fun p => strBytes p.1.1 ++ [0] ++ be32 p.2 ++ be32 (payloadBytes p.1).length)).flatten ∧
    (∀ e : String × String,
      payloadBytes e = strBytes "<k>" ++ strBytes e.1 ++ strBytes "</k>" ++ [10] ++ strBytes e.2) := by
  obtain ⟨hd, hi⟩ := build_aux_eq entries 0 d i h
  refine ⟨hd, hi, fun e => ?_⟩
  rw [payloadBytes, strBytes_append, strBytes_append, strBytes_append, strBytes_append,
    show strBytes "\n" = [10] from rfl]

/-- Witness for C3 at a concrete one-entry input. -/
theorem build_dict_and_idx_record_layout_witness :
    build_dict_and_idx [("a", "b")] =
      some (strBytes "<k>a</k>\nb", strBytes "a" ++ [0] ++ be32 0 ++ be32 10) ∧
    payloadBytes ("a", "b") =
      strBytes "<k>" ++ strBytes "a" ++ strBytes "</k>" ++ [10] ++ strBytes "b" :=
  ⟨by decide,
    (build_dict_and_idx_record_layout [("a", "b")] (strBytes "<k>a</k>\nb")
      (strBytes "a" ++ [0] ++ be32 0 ++ be32 10) (by decide)).2.2 ("a", "b")⟩

/-- C8: an entry whose serialized payload does not fit the unsigned 32-bit
length field makes `build_dict_and_idx` fail (model of the `struct.error`
raised by `struct.pack(">I", ...)`), so no artifact bytes are produced and
nothing is truncated; in `main` the output files are opened only after
`build_dict_and_idx` returns. -/
theorem payload_overflow_aborts (entries : List (String × String))
    (h : ∃ e ∈ entries, 2 ^ 32 ≤ (payloadBytes e).length) :
    build_dict_and_idx entries = none :=
  build_aux_overflow entries 0 h

/-- An entry whose definition is `2^32` copies of `'a'`. -/
def overflowEntry : String × String := ("", String.mk (List.replicate (2 ^ 32) 'a'))

lemma strBytes_mk_replicate (n : Nat) :
    (strBytes (String.mk (List.replicate n 'a'))).length = n := by
  induction n with
  | zero => rfl
  | succ k ih =>
    have hd : ∀ l : List Char, (String.mk l).data = l := fun l => rfl
    have ha : utf8EncodeNat ('a'.toNat) = [97] := rfl
    simp only [strBytes, hd, List.replicate_succ, List.flatMap_cons, ha,
      List.length_append, List.length_cons, List.length_nil] at ih ⊢
    omega

lemma overflowEntry_payload_length : (payloadBytes overflowEntry).length = 8 + 2 ^ 32 := by
  simp only [payloadBytes, overflowEntry, strBytes_append, List.length_append]
  rw [show (strBytes "<k>").length = 3 from rfl, show (strBytes "").length = 0 from rfl,
    show (strBytes "</k>").length = 4 from rfl, show (strBytes "\n").length = 1 from rfl,
    strBytes_mk_replicate]

/-- Witness for C8: a single oversized entry makes the build fail. -/
theorem payload_overflow_aborts_witness :
    (∃ e ∈ [overflowEntry], 2 ^ 32 ≤ (payloadBytes e).length) ∧
    build_dict_and_idx [overflowEntry] = none := by
  have hlen : 2 ^ 32 ≤ (payloadBytes overflowEntry).length := by
    rw [overflowEntry_payload_length]; omega
  have hmem : overflowEntry ∈ [overflowEntry] := by simp
  exact ⟨⟨overflowEntry, hmem, hlen⟩,
    payload_overflow_aborts _ ⟨overflowEntry, hmem, hlen⟩⟩

/-! ### Example deduplication -/

/-- The example lines a record offers, before deduplication: the stripped
`example_surface_en`, then the stripped `example_lemma_en`, blanks dropped. -/
def exampleCandidates (entry : Record) : List String :=
  (if pystrip (pyOr entry.example_surface_en "") ≠ "" then
    [pystrip (pyOr entry.example_surface_en "")] else []) ++
  (if pystrip (pyOr entry.example_lemma_en "") ≠ "" then
    [pystrip (pyOr entry.example_lemma_en "")] else [])

/-- First-occurrence-wins deduplication against an accumulator of already
seen strings: a candidate already seen is dropped, a new one is appended. -/
def keepFirstsAux (seen : List String) : List String → List String
  | [] => seen
  | x :: xs => if x ∈ seen then keepFirstsAux seen xs else keepFirstsAux (seen ++ [x]) xs

lemma keepFirstsAux_append (l1 : List String) : ∀ (s l2 : List String),
    keepFirstsAux s (l1 ++ l2) = keepFirstsAux (keepFirstsAux s l1) l2 := by
  induction l1 with
  | nil => intro s l2; rfl
  | cons x xs ih =>
    intro s l2
    by_cases hx : x ∈ s <;> simp [keepFirstsAux, hx, ih]

lemma keepFirstsAux_nodup (l : List String) : ∀ s : List String,
    s.Nodup → (keepFirstsAux s l).Nodup := by
  induction l with
  | nil => intro s hs; exact hs
  | cons x xs ih =>
    intro s hs
    by_cases hx : x ∈ s
    · simpa [keepFirstsAux, hx] using ih s hs
    · have hs2 : (s ++ [x]).Nodup :=
        hs.append (List.nodup_singleton x)
          (fun a ha hax => hx ((List.mem_singleton.mp hax) ▸ ha))
      simpa [keepFirstsAux, hx] using ih (s ++ [x]) hs2

lemma build_definition_core_seen (e : Record) (s : List String) (l : String) :
    (build_definition_core e s l).2 = keepFirstsAux s (exampleCandidates e) := by
  simp only [build_definition_core, exampleCandidates]
  by_cases hS : pystrip (pyOr e.example_surface_en "") = "" <;>
    by_cases hL : pystrip (pyOr e.example_lemma_en "") = "" <;>
      by_cases hSs : pystrip (pyOr e.example_surface_en "") ∈ s <;>
        by_cases hLs : pystrip (pyOr e.example_lemma_en "") ∈ s <;>
          by_cases hEq : pystrip (pyOr e.example_lemma_en "") =
              pystrip (pyOr e.example_surface_en "") <;>
            simp_all [keepFirstsAux, List.mem_append]

lemma build_definition_core_new_in_lines (e : Record) (s : List String) (l : String)
    (x : String) (hx : x ∈ (build_definition_core e s l).2) :
    x ∈ s ∨ x ∈ (build_definition_core e s l).1 := by
  simp only [build_definition_core] at hx ⊢
  by_cases hS : pystrip (pyOr e.example_surface_en "") = "" <;>
    by_cases hL : pystrip (pyOr e.example_lemma_en "") = "" <;>
      by_cases hSs : pystrip (pyOr e.example_surface_en "") ∈ s <;>
        by_cases hLs : pystrip (pyOr e.example_lemma_en "") ∈ s <;>
          by_cases hEq : pystrip (pyOr e.example_lemma_en "") =
              pystrip (pyOr e.example_surface_en "") <;>
            simp_all [List.mem_append] <;> tauto

lemma alistGet_alistSet_self {β : Type} (l : List (String × β)) (k : String) (v : β) :
    alistGet (alistSet l k v) k = some v := by
  induction l with
  | nil => simp [alistSet, alistGet]
  | cons p rest ih =>
    obtain ⟨k1, v1⟩ := p
    by_cases h : k1 = k <;> simp [alistSet, alistGet, h, ih]

lemma alistGet_alistSet_ne {β : Type} (l : List (String × β)) (k k2 : String) (v : β)
    (h : k ≠ k2) : alistGet (alistSet l k v) k2 = alistGet l k2 := by
  induction l with
  | nil => simp [alistSet, alistGet, h]
  | cons p rest ih =>
    obtain ⟨k1, v1⟩ := p
    by_cases h1 : k1 = k
    · subst h1
      simp [alistSet, alistGet, h]
    · simp [alistSet, alistGet, h1, ih]

lemma processRecord_seen_comp (st : LoadState) (lbl : String) (obj : Record) :
    (processRecord st lbl obj).seen =
      if obj.ok = some (JsonVal.jbool false) ∨ headwordOf obj = "" then st.seen
      else alistSet st.seen (headwordOf obj)
        (build_definition obj ((alistGet st.seen (headwordOf obj)).getD []) lbl).2 := by
  by_cases h1 : obj.ok = some (JsonVal.jbool false)
  · rw [if_pos (Or.inl h1)]
    unfold processRecord
    rw [if_pos h1]
  · by_cases h2 : headwordOf obj = ""
    · rw [if_pos (Or.inr h2)]
      unfold processRecord
      rw [if_neg h1]
      dsimp only
      rw [if_pos h2]
    · rw [if_neg (by rintro (h | h); exacts [h1 h, h2 h])]
      unfold processRecord
      rw [if_neg h1]
      dsimp only
      rw [if_neg h2]
      split <;> rfl

/-- Effect of one record on the seen-example set of a fixed non-blank
headword `w`: it changes only when the record is kept and maps to `w`. -/
lemma processRecord_seen_at (st : LoadState) (lbl : String) (obj : Record) (w : String)
    (hw : w ≠ "") :
    (alistGet (processRecord st lbl obj).seen w).getD [] =
      if obj.ok ≠ some (JsonVal.jbool false) ∧ headwordOf obj = w then
        (build_definition obj ((alistGet st.seen w).getD []) lbl).2
      else (alistGet st.seen w).getD [] := by
  rw [processRecord_seen_comp]
  by_cases h1 : obj.ok = some (JsonVal.jbool false)
  · simp [h1]
  · by_cases h2 : headwordOf obj = w
    · rw [if_neg (by simp [h1, h2 ▸ hw]), h2, alistGet_alistSet_self]
      simp [h1, h2]
    · by_cases h3 : headwordOf obj = ""
      · simp [h1, h2, h3, Ne.symm hw]
      · rw [if_neg (by simp [h1, h3]), alistGet_alistSet_ne _ _ _ _ h2]
        simp [h1, h2]

/-- The loader input flattened to one stream of `(record, source label)`
pairs in processing order. -/
def flattenSources (sources : List (List Record × String)) : List (Record × String) :=
  sources.flatMap (fun src => src.1.map (fun r => (r, src.2)))

/-- Folding `processRecord` over a flat `(record, source label)` stream. -/
def processAll (stream : List (Record × String)) (st : LoadState) : LoadState :=
  stream.foldl (fun st2 p => processRecord st2 p.2 p.1) st

lemma loadState_eq_processAll (sources : List (List Record × String)) :
    loadState sources = processAll (flattenSources sources) ⟨[], []⟩ := by
  suffices h : ∀ st0 : LoadState,
      sources.foldl
        (fun st src => src.1.foldl (fun st2 obj => processRecord st2 src.2 obj) st) st0 =
      processAll (flattenSources sources) st0 from h _
  induction sources with
  | nil => intro st0; rfl
  | cons src rest ih =>
    intro st0
    simp only [List.foldl_cons, flattenSources, List.flatMap_cons, processAll,
      List.foldl_append, List.foldl_map]
    exact ih _

/-- The records of the stream that are kept (validity flag not literally
`false`) and whose chosen headword is `w`, in processing order. -/
def keptForWord (w : String) (stream : List (Record × String)) : List (Record × String) :=
  stream.filter (fun p => decide (p.1.ok ≠ some (JsonVal.jbool false) ∧ headwordOf p.1 = w))

lemma processAll_seen_at (stream : List (Record × String)) : ∀ (st : LoadState) (w : String),
    w ≠ "" →
    (alistGet (processAll stream st).seen w).getD [] =
      (keptForWord w stream).foldl (fun seen p => (build_definition p.1 seen p.2).2)
        ((alistGet st.seen w).getD []) := by
  induction stream with
  | nil => intro st w hw; rfl
  | cons p rest ih =>
    intro st w hw
    have hstep := processRecord_seen_at st p.2 p.1 w hw
    have hcons : processAll (p :: rest) st = processAll rest (processRecord st p.2 p.1) := rfl
    by_cases hc : p.1.ok ≠ some (JsonVal.jbool false) ∧ headwordOf p.1 = w
    · rw [if_pos hc] at hstep
      have hfilter : keptForWord w (p :: rest) = p :: keptForWord w rest := by
        simp only [keptForWord, List.filter_cons]
        rw [if_pos (by simpa using hc)]
      rw [hcons, ih _ w hw, hstep, hfilter, List.foldl_cons]
    · rw [if_neg hc] at hstep
      have hfilter : keptForWord w (p :: rest) = keptForWord w rest := by
        simp only [keptForWord, List.filter_cons]
        rw [if_neg (by simpa using hc)]
      rw [hcons, ih _ w hw, hstep, hfilter]

/-- The deduplicated example set collected for headword `w` across all
sources and records. -/
def seenForWord (sources : List (List Record × String)) (w : String) : List String :=
  (alistGet (loadState sources).seen w).getD []

lemma foldl_build_definition_eq_keepFirsts (recs : List (Record × String)) :
    ∀ s : List String,
    recs.foldl (fun seen p => (build_definition p.1 seen p.2).2) s =
      keepFirstsAux s (recs.flatMap (fun p => exampleCandidates p.1)) := by
  induction recs with
  | nil => intro s; rfl
  | cons p rest ih =>
    intro s
    simp only [List.foldl_cons, List.flatMap_cons]
    rw [keepFirstsAux_append, ih,
      show (build_definition p.1 s p.2).2 = (build_definition_core p.1 s p.2).2 from rfl,
      build_definition_core_seen]

/-- C5: the example set collected for a non-blank headword `w` is exactly the
first-occurrence-wins deduplication of the example candidates of all kept
records for `w`, across all sources in processing order; it has no
duplicates; each `build_definition` call deduplicates against the incoming
set; and every example it records is either already seen or is one of the
lines of the block it renders. -/
theorem example_dedup_per_headword (sources : List (List Record × String)) (w : String)
    (hw : w ≠ "") :
    seenForWord sources w = keepFirstsAux []
      ((keptForWord w (flattenSources sources)).flatMap (fun p => exampleCandidates p.1)) ∧
    (seenForWord sources w).Nodup ∧
    (∀ (e : Record) (s : List String) (l : String),
      (build_definition e s l).2 = keepFirstsAux s (exampleCandidates e)) ∧
    (∀ (e : Record) (s : List String) (l x : String),
      x ∈ (build_definition e s l).2 → x ∈ s ∨ x ∈ (build_definition_core e s l).1) := by
  have h1 : seenForWord sources w = keepFirstsAux []
      ((keptForWord w (flattenSources sources)).flatMap (fun p => exampleCandidates p.1)) := by
    rw [seenForWord, loadState_eq_processAll, processAll_seen_at _ _ _ hw,
      foldl_build_definition_eq_keepFirsts]
    rfl
  refine ⟨h1, ?_, fun e s l => build_definition_core_seen e s l,
    fun e s l x hx => build_definition_core_new_in_lines e s l x hx⟩
  rw [h1]
  exact keepFirstsAux_nodup _ [] List.nodup_nil

def henRecordA : Record :=
  { word := some "hen", meaning_hu := some "tyúk", example_surface_en := some "The hens laid eggs." }

def henRecordB : Record :=
  { word := some "hen", example_surface_en := some "The hens laid eggs." }

def henSources : List (List Record × String) :=
  [([henRecordA], "GPT-5-mini"), ([henRecordB], "gemma3:27b")]

/-- Witness for C5: two records from different sources with the same example
sentence leave exactly one deduplicated occurrence. -/
theorem example_dedup_per_headword_witness :
    ("hen" : String) ≠ "" ∧
    seenForWord henSources "hen" = ["The hens laid eggs."] ∧
    (seenForWord henSources "hen").Nodup :=
  ⟨by decide, by decide, (example_dedup_per_headword henSources "hen" (by decide)).2.1⟩

/-! ### Priority ordering of definition blocks -/

lemma orderedInsert_filter_priority (a : String × String) (k : Nat)
    (l : List (String × String)) :
    (List.orderedInsert blockLe a l).filter (fun p => priority_index p.1 == k) =
      if priority_index a.1 = k then
        a :: l.filter (fun p => priority_index p.1 == k)
      else l.filter (fun p => priority_index p.1 == k) := by
  induction l with
  | nil => by_cases h : priority_index a.1 = k <;> simp [List.orderedInsert, h]
  | cons b rest ih =>
    simp only [List.orderedInsert]
    by_cases hr : blockLe a b
    · rw [if_pos hr]
      by_cases h : priority_index a.1 = k <;> simp [List.filter_cons, h]
    · rw [if_neg hr]
      simp only [blockLe] at hr
      have hlt : priority_index b.1 < priority_index a.1 := Nat.not_le.mp hr
      by_cases h : priority_index a.1 = k
      · have hb : ¬ priority_index b.1 = k := by omega
        simp [List.filter_cons, hb, ih, h]
      · by_cases hb : priority_index b.1 = k <;> simp [List.filter_cons, hb, ih, h]

lemma insertionSort_filter_priority (l : List (String × String)) (k : Nat) :
    (List.insertionSort blockLe l).filter (fun p => priority_index p.1 == k) =
      l.filter (fun p => priority_index p.1 == k) := by
  induction l with
  | nil => rfl
  | cons a rest ih =>
    simp only [List.insertionSort]
    rw [orderedInsert_filter_priority]
    by_cases h : priority_index a.1 = k <;> simp [List.filter_cons, h, ih]

/-- C6: every produced definition text is the blocks of its headword joined
by a blank line after a stable sort by the configured priority ranks: the
sorted blocks are a permutation of the collected ones, pairwise ordered by
rank, blocks of equal rank (in particular all unranked blocks, which get
rank 999 — after every ranked block) keep their encounter order, and with
the configured list the `"GPT-5-mini"` block precedes the `"gemma3:27b"`
block. -/
theorem blocks_ordered_by_source_priority (sources : List (List Record × String))
    (w defn : String) (h : (w, defn) ∈ load_entries_from_sources sources) :
    defn = String.intercalate "\n\n"
      ((List.insertionSort blockLe
        ((alistGet (loadState sources).blocks w).getD [])).map Prod.snd) ∧
    List.Perm (List.insertionSort blockLe ((alistGet (loadState sources).blocks w).getD []))
      ((alistGet (loadState sources).blocks w).getD []) ∧
    List.Pairwise blockLe
      (List.insertionSort blockLe ((alistGet (loadState sources).blocks w).getD [])) ∧
    (∀ k : Nat,
      (List.insertionSort blockLe ((alistGet (loadState sources).blocks w).getD [])).filter
          (fun p => priority_index p.1 == k) =
        ((alistGet (loadState sources).blocks w).getD []).filter
          (fun p => priority_index p.1 == k)) ∧
    priority_index "GPT-5-mini" = 0 ∧ priority_index "gemma3:27b" = 1 ∧
    (∀ lbl : String, lbl ∉ MODEL_PRIORITY → priority_index lbl = 999) ∧
    List.insertionSort blockLe [("gemma3:27b", "B"), ("GPT-5-mini", "A")] =
      [("GPT-5-mini", "A"), ("gemma3:27b", "B")] := by
  refine ⟨?_, List.perm_insertionSort blockLe _, List.sorted_insertionSort blockLe _,
    fun k => insertionSort_filter_priority _ k, by decide, by decide, ?_, by decide⟩
  · simp only [load_entries_from_sources, List.mem_map] at h
    obtain ⟨w2, hmem, heq⟩ := h
    simp only [Prod.mk.injEq] at heq
    obtain ⟨rfl, rfl⟩ := heq
    rfl
  · intro lbl hnm
    simp only [List.mem_cons, MODEL_PRIORITY, List.not_mem_nil, or_false] at hnm
    push_neg at hnm
    have h1 : ¬("GPT-5-mini" = lbl) := fun hh => hnm.1 hh.symm
    have h2 : ¬("gemma3:27b" = lbl) := fun hh => hnm.2 hh.symm
    simp [priority_index, priorityIndexAux, MODEL_PRIORITY, h1, h2]

def brickRecordA : Record := { word := some "brick", meaning_hu := some "tégla", pos_hu := some "főnév" }

def brickRecordB : Record := { word := some "brick", meaning_hu := some "tégla" }

def brickSources : List (List Record × String) :=
  [([brickRecordB], "gemma3:27b"), ([brickRecordA], "GPT-5-mini")]

/-- Witness for C6: the `"GPT-5-mini"` block precedes the `"gemma3:27b"`
block even though its source stream is read second. -/
theorem blocks_ordered_by_source_priority_witness :
    ("brick", "tégla (főnév) (GPT-5-mini)\n\ntégla (gemma3:27b)") ∈
      load_entries_from_sources brickSources ∧
    priority_index "GPT-5-mini" = 0 :=
  ⟨by decide,
    (blocks_ordered_by_source_priority brickSources "brick"
      "tégla (főnév) (GPT-5-mini)\n\ntégla (gemma3:27b)" (by decide)).2.2.2.2.1⟩

/-- C7: the whole compilation is a pure function of the input streams, the
source labels and the priority configuration, so compiling equal inputs
twice yields byte-identical entry lists and artifacts. -/
theorem compile_deterministic (s1 s2 : List (List Record × String)) (h : s1 = s2) :
    load_entries_from_sources s1 = load_entries_from_sources s2 ∧
    build_dict_and_idx (load_entries_from_sources s1) =
      build_dict_and_idx (load_entries_from_sources s2) := by
  subst h
  exact ⟨rfl, rfl⟩

/-- Witness for C7 at a concrete input. -/
theorem compile_deterministic_witness :
    brickSources = brickSources ∧
    build_dict_and_idx (load_entries_from_sources brickSources) =
      build_dict_and_idx (load_entries_from_sources brickSources) :=
  ⟨rfl, (compile_deterministic brickSources brickSources rfl).2⟩

/-- C9 counterexample: a record whose `word` is whitespace-only (blank) and
whose `lemma` is non-blank is NOT kept under the lemma — the truthy
whitespace string suppresses the fallback, the stripped headword is empty,
and the record is dropped entirely. -/
theorem blank_word_record_dropped_counterexample :
    headwordOf { word := some " ", lemmaField := some "hen" } = "" ∧
    pystrip "hen" = "hen" ∧
    load_entries_from_sources [([{ word := some " ", lemmaField := some "hen" }], "GPT-5-mini")] =
      [] :=
  ⟨rfl, rfl, rfl⟩

/-- C9 amended: the fallback to `lemma` happens only when `word` is absent or
the empty string; a present non-empty `word` (even whitespace-only) is
stripped directly, and the record is skipped whenever the stripped headword
is empty. -/
theorem headword_fallback_amended (obj : Record) (st : LoadState) (lbl : String) :
    (obj.word = none ∨ obj.word = some "" →
      headwordOf obj = pystrip (pyOr obj.lemmaField "")) ∧
    (∀ s : String, obj.word = some s → s ≠ "" → headwordOf obj = pystrip s) ∧
    (headwordOf obj = "" → processRecord st lbl obj = st) := by
  refine ⟨?_, ?_, ?_⟩
  · rintro (h | h) <;> simp [headwordOf, pyOr, h]
  · intro s hs hne
    simp [headwordOf, pyOr, hs, hne]
  · intro h
    by_cases h1 : obj.ok = some (JsonVal.jbool false)
    · unfold processRecord
      rw [if_pos h1]
    · unfold processRecord
      rw [if_neg h1]
      dsimp only
      rw [if_pos h]

/-- Witness for C9's amended claim at the counterexample record. -/
theorem headword_fallback_amended_witness :
    ({ word := some " ", lemmaField := some "hen" } : Record).word = some " " ∧
    (" " : String) ≠ "" ∧
    headwordOf { word := some " ", lemmaField := some "hen" } = pystrip " " ∧
    processRecord ⟨[], []⟩ "GPT-5-mini" { word := some " ", lemmaField := some "hen" } =
      (⟨[], []⟩ : LoadState) :=
  ⟨rfl, by decide,
    (headword_fallback_amended { word := some " ", lemmaField := some "hen" } ⟨[], []⟩
      "GPT-5-mini").2.1 " " rfl (by decide),
    (headword_fallback_amended { word := some " ", lemmaField := some "hen" } ⟨[], []⟩
      "GPT-5-mini").2.2 rfl⟩

/-- C10: a record is dropped for invalidity exactly when its `ok` field is
literally JSON `false`; an absent `ok` field, or any other value, leaves the
record processed identically, and such records do contribute entries. -/
theorem ok_flag_only_false_filters (obj : Record) (st : LoadState) (lbl : String) :
    (obj.ok = some (JsonVal.jbool false) → processRecord st lbl obj = st) ∧
    (obj.ok ≠ some (JsonVal.jbool false) →
      processRecord st lbl obj = processRecord st lbl { obj with ok := none }) ∧
    (∀ v : JsonVal, v ≠ JsonVal.jbool false →
      processRecord st lbl { obj with ok := some v } =
        processRecord st lbl { obj with ok := none }) ∧
    load_entries_from_sources [([{ word := some "pig", meaning_hu := some "disznó" }], "A")] ≠
      [] := by
  refine ⟨?_, ?_, ?_, by decide⟩
  · intro h
    unfold processRecord
    rw [if_pos h]
  · intro h
    unfold processRecord
    rw [if_neg h,
      if_neg (show ¬ ({ obj with ok := none } : Record).ok = some (JsonVal.jbool false) by simp)]
    rfl
  · intro v hv
    unfold processRecord
    rw [if_neg (show ¬ ({ obj with ok := some v } : Record).ok = some (JsonVal.jbool false) by
        simp [hv]),
      if_neg (show ¬ ({ obj with ok := none } : Record).ok = some (JsonVal.jbool false) by simp)]
    rfl

/-- Witness for C10: `ok` set to JSON `true` processes like `ok` absent. -/
theorem ok_flag_only_false_filters_witness :
    (JsonVal.jbool true ≠ JsonVal.jbool false) ∧
    processRecord ⟨[], []⟩ "A"
        { ({ word := some "pig" } : Record) with ok := some (JsonVal.jbool true) } =
      processRecord ⟨[], []⟩ "A" { ({ word := some "pig" } : Record) with ok := none } :=
  ⟨by decide,
    (ok_flag_only_false_filters { word := some "pig" } ⟨[], []⟩ "A").2.2.1
      (JsonVal.jbool true) (by decide)⟩

end Epub2Stardict
